import Mathlib

/-!
# Verification of json2atom (JSON Feed → Atom converter)

Shallow embedding of `src/main.rs`. The Rust structs become Lean
structures, serde-derived JSON deserialization becomes an explicit
decoder over a JSON value type, and the string-building renderers become
Lean functions over `String`. The `time` crate's RFC 3339 parser
(`OffsetDateTime::parse` with `well_known::Rfc3339`) is modelled by an
executable character-level parser. The wall clock (`now()`) and the
filesystem (`get_mtime`) are passed in as explicit parameters.
-/

namespace Json2Atom

/-- Rust `struct Author` (src/main.rs lines 40-45). -/
structure Author where
  name : Option String
  url : Option String
  avatar : Option String
  deriving Repr, DecidableEq

/-- Rust `struct Hub` (src/main.rs lines 64-68). -/
structure Hub where
  type : String
  url : String
  deriving Repr, DecidableEq

/-- Rust `struct Attachment` (src/main.rs lines 172-179). -/
structure Attachment where
  url : String
  mime_type : String
  title : Option String
  size_in_bytes : Option Nat
  duration_in_seconds : Option Nat
  deriving Repr, DecidableEq

/-- Rust `struct Item` (src/main.rs lines 70-88). -/
structure Item where
  id : String
  url : Option String
  external_url : Option String
  title : Option String
  content_html : Option String
  content_text : Option String
  summary : Option String
  image : Option String
  banner_image : Option String
  date_published : Option String
  date_modified : Option String
  authors : Option (List Author)
  author : Option Author
  tags : Option (List String)
  language : Option String
  attachments : Option (List Attachment)
  deriving Repr, DecidableEq

/-- Rust `struct Feed` (src/main.rs lines 181-198). -/
structure Feed where
  version : String
  title : String
  home_page_url : Option String
  feed_url : Option String
  description : Option String
  user_comment : Option String
  next_url : Option String
  icon : Option String
  favicon : Option String
  authors : Option (List Author)
  author : Option Author
  language : Option String
  expired : Option Bool
  hubs : Option (List Hub)
  items : Option (List Item)
  deriving Repr, DecidableEq

/-- Rust `Item::cleanup_authors` (src/main.rs lines 91-99): if the legacy
`author` field is set, move it into a one-element `authors` list when
`authors` is absent, then clear `author`. -/
def Item.cleanup_authors (it : Item) : Item :=
  match it.author with
  | some a =>
    let it :=
      if it.authors.isNone then
        { it with authors := some [a] }
      else it
    { it with author := none }
  | none => it

/-- Rust `Feed::cleanup_authors` (src/main.rs lines 214-222): same
normalization on the feed-level legacy `author`. -/
def Feed.cleanup_authors (f : Feed) : Feed :=
  match f.author with
  | some a =>
    let f :=
      if f.authors.isNone then
        { f with authors := some [a] }
      else f
    { f with author := none }
  | none => f

/-! ## JSON values and serde-style deserialization

`Feed::parse` calls `serde_json::from_str::<Feed>`. The text-level JSON
grammar belongs to the external `serde_json` crate; the embedding starts
from parsed JSON values and models the serde-derived struct
deserializers: unknown object fields are ignored, an absent or `null`
`Option` field becomes `None`, an absent required field or a
type-mismatched value is an error (`none`). Numbers are modelled as
integers (the only numeric fields are `u64`); duplicate object keys are
outside the model. -/

/-- A parsed JSON value. -/
inductive Json where
  | null : Json
  | bool (b : Bool) : Json
  | num (n : Int) : Json
  | str (s : String) : Json
  | arr (elems : List Json) : Json
  | obj (fields : List (String × Json)) : Json

/-- Look up a key in a JSON object's field list (first occurrence). -/
def getField : List (String × Json) → String → Option Json
  | [], _ => none
  | (k, v) :: rest, key => if k = key then some v else getField rest key

/-- Decode a JSON value as a string; anything else is a type mismatch. -/
def decodeString : Json → Option String
  | .str s => some s
  | _ => none

/-- Decode a JSON value as a `u64`; a non-integer or negative value is a
type mismatch. -/
def decodeU64 : Json → Option Nat
  | .num n => if 0 ≤ n then some n.toNat else none
  | _ => none

/-- Decode a JSON value as a boolean. -/
def decodeBool : Json → Option Bool
  | .bool b => some b
  | _ => none

/-- Decode a JSON array elementwise. -/
def decodeList (dec : Json → Option α) : Json → Option (List α)
  | .arr xs => xs.mapM dec
  | _ => none

/-- A required field: absent, `null`, or mismatched is an error. -/
def reqField (dec : Json → Option α) (fields : List (String × Json))
    (key : String) : Option α :=
  match getField fields key with
  | some v => dec v
  | none => none

/-- An `Option` field: absent or `null` becomes `None`; a present value
must decode. -/
def optField (dec : Json → Option α) (fields : List (String × Json))
    (key : String) : Option (Option α) :=
  match getField fields key with
  | none => some none
  | some .null => some none
  | some v => (dec v).map some

/-- serde-derived deserializer for `Author`: all fields optional. -/
def decodeAuthor : Json → Option Author
  | .obj fs => do
    let name ← optField decodeString fs "name"
    let url ← optField decodeString fs "url"
    let avatar ← optField decodeString fs "avatar"
    pure ⟨name, url, avatar⟩
  | _ => none

/-- serde-derived deserializer for `Hub`: `type` and `url` required. -/
def decodeHub : Json → Option Hub
  | .obj fs => do
    let ty ← reqField decodeString fs "type"
    let url ← reqField decodeString fs "url"
    pure ⟨ty, url⟩
  | _ => none

/-- serde-derived deserializer for `Attachment`: `url` and `mime_type`
required. -/
def decodeAttachment : Json → Option Attachment
  | .obj fs => do
    let url ← reqField decodeString fs "url"
    let mime ← reqField decodeString fs "mime_type"
    let title ← optField decodeString fs "title"
    let size ← optField decodeU64 fs "size_in_bytes"
    let dur ← optField decodeU64 fs "duration_in_seconds"
    pure ⟨url, mime, title, size, dur⟩
  | _ => none

/-- First half of the `Item` field extraction (split only to keep the
compiled code small; the decoded fields and their order follow the
struct declaration). -/
def decodeItemFront (fs : List (String × Json)) :
    Option (String × Option String × Option String × Option String ×
      Option String × Option String × Option String × Option String) := do
  let id ← reqField decodeString fs "id"
  let url ← optField decodeString fs "url"
  let external_url ← optField decodeString fs "external_url"
  let title ← optField decodeString fs "title"
  let content_html ← optField decodeString fs "content_html"
  let content_text ← optField decodeString fs "content_text"
  let summary ← optField decodeString fs "summary"
  let image ← optField decodeString fs "image"
  pure (id, url, external_url, title, content_html, content_text, summary, image)

/-- Second half of the `Item` field extraction. -/
def decodeItemBack (fs : List (String × Json)) :
    Option (Option String × Option String × Option String ×
      Option (List Author) × Option Author × Option (List String) ×
      Option String × Option (List Attachment)) := do
  let banner_image ← optField decodeString fs "banner_image"
  let date_published ← optField decodeString fs "date_published"
  let date_modified ← optField decodeString fs "date_modified"
  let authors ← optField (decodeList decodeAuthor) fs "authors"
  let author ← optField decodeAuthor fs "author"
  let tags ← optField (decodeList decodeString) fs "tags"
  let language ← optField decodeString fs "language"
  let attachments ← optField (decodeList decodeAttachment) fs "attachments"
  pure (banner_image, date_published, date_modified, authors, author, tags,
    language, attachments)

/-- serde-derived deserializer for `Item`: only `id` is required. -/
def decodeItem : Json → Option Item
  | .obj fs => do
    let (id, url, external_url, title, content_html, content_text, summary,
      image) ← decodeItemFront fs
    let (banner_image, date_published, date_modified, authors, author, tags,
      language, attachments) ← decodeItemBack fs
    pure ⟨id, url, external_url, title, content_html, content_text, summary,
      image, banner_image, date_published, date_modified, authors, author,
      tags, language, attachments⟩
  | _ => none

/-- First half of the `Feed` field extraction (split only to keep the
compiled code small; the decoded fields and their order follow the
struct declaration). -/
def decodeFeedFront (fs : List (String × Json)) :
    Option (String × String × Option String × Option String × Option String ×
      Option String × Option String) := do
  let version ← reqField decodeString fs "version"
  let title ← reqField decodeString fs "title"
  let home_page_url ← optField decodeString fs "home_page_url"
  let feed_url ← optField decodeString fs "feed_url"
  let description ← optField decodeString fs "description"
  let user_comment ← optField decodeString fs "user_comment"
  let next_url ← optField decodeString fs "next_url"
  pure (version, title, home_page_url, feed_url, description, user_comment,
    next_url)

/-- Second half of the `Feed` field extraction. -/
def decodeFeedBack (fs : List (String × Json)) :
    Option (Option String × Option String × Option (List Author) ×
      Option Author × Option String × Option Bool × Option (List Hub) ×
      Option (List Item)) := do
  let icon ← optField decodeString fs "icon"
  let favicon ← optField decodeString fs "favicon"
  let authors ← optField (decodeList decodeAuthor) fs "authors"
  let author ← optField decodeAuthor fs "author"
  let language ← optField decodeString fs "language"
  let expired ← optField decodeBool fs "expired"
  let hubs ← optField (decodeList decodeHub) fs "hubs"
  let items ← optField (decodeList decodeItem) fs "items"
  pure (icon, favicon, authors, author, language, expired, hubs, items)

/-- serde-derived deserializer for `Feed` (src/main.rs lines 181-198):
`version` and `title` are declared as plain `String`, hence required;
everything else is `Option`. -/
def decodeFeed : Json → Option Feed
  | .obj fs => do
    let (version, title, home_page_url, feed_url, description, user_comment,
      next_url) ← decodeFeedFront fs
    let (icon, favicon, authors, author, language, expired, hubs, items) ←
      decodeFeedBack fs
    pure ⟨version, title, home_page_url, feed_url, description, user_comment,
      next_url, icon, favicon, authors, author, language, expired, hubs, items⟩
  | _ => none

/-- Rust `Feed::parse` (src/main.rs lines 201-212): deserialize, then apply
author normalization to the feed and to every item. -/
def Feed.parse (j : Json) : Option Feed :=
  (decodeFeed j).map fun f0 =>
    let f1 := f0.cleanup_authors
    { f1 with items := f1.items.map (List.map Item.cleanup_authors) }

/-! ## String comparison

Rust's `String::cmp` compares the UTF-8 byte sequences
lexicographically; on UTF-8 this coincides with lexicographic order on
the codepoint sequences, which is how it is embedded here. -/

/-- Lexicographic strict order on codepoint lists, modelling Rust's
`str` ordering. -/
def charListLt : List Char → List Char → Bool
  | [], [] => false
  | [], _ :: _ => true
  | _ :: _, [] => false
  | a :: as, b :: bs =>
    if a < b then true
    else if b < a then false
    else charListLt as bs

/-- Whether `s.cmp(t) == Ordering::Less` holds for Rust strings. -/
def strLtB (s t : String) : Bool := charListLt s.data t.data

/-- The floor string used to seed the feed `updated` scan
(src/main.rs line 272). -/
def floorUpdated : String := "2000-01-01T00:00:00Z"

/-- One step of the feed `updated` scan (src/main.rs lines 274-284):
if the item has `date_modified`, take it when strictly greater than the
running value; otherwise, if it has `date_published`, take that when
strictly greater; otherwise leave the running value. -/
def updatedStep (upd : String) (it : Item) : String :=
  match it.date_modified with
  | some dm => if strLtB upd dm then dm else upd
  | none =>
    match it.date_published with
    | some dp => if strLtB upd dp then dp else upd
    | none => upd

/-- The feed `updated` scan over the item list (src/main.rs lines
272-285), starting from the floor string. -/
def updatedScan (items : List Item) : String :=
  items.foldl updatedStep floorUpdated

/-- The `updated` string `Feed::to_atom` computes (src/main.rs lines
272-285): the scan over `items`, or the floor when `items` is `None`. -/
def Feed.updatedString (f : Feed) : String :=
  updatedScan (f.items.getD [])

/-- The timestamp an item contributes to the feed `updated` scan:
`date_modified` if present, else `date_published` if present, else
nothing. -/
def Item.candidate (it : Item) : Option String :=
  match it.date_modified with
  | some dm => some dm
  | none => it.date_published

/-- All candidate timestamps contributed by a list of items. -/
def candidates (items : List Item) : List String :=
  items.filterMap Item.candidate

/-! ## Atom rendering -/

/-- Concatenation of rendered fragments, embedding the Rust
`for x in xs { output += render(x) }` loops. -/
def concatMap (f : α → String) : List α → String
  | [] => ""
  | x :: xs => f x ++ concatMap f xs

/-- Rust `Author::to_atom` (src/main.rs lines 48-61). -/
def Author.to_atom (a : Author) : String :=
  "<author>\n<name>"
  ++ (match a.name with
      | some name => name
      | none => "")
  ++ "</name>\n"
  ++ (match a.url with
      | some url => "<uri>" ++ url ++ "</uri>\n"
      | none => "")
  ++ "</author>\n"

/-- The opening `entry` tag (src/main.rs lines 104-108). -/
def Item.entryOpen (it : Item) : String :=
  match it.language with
  | some language => "<entry xml:lang=\"" ++ language ++ "\">\n"
  | none => "<entry>\n"

/-- The content element of an entry (src/main.rs lines 123-130):
`content_text` wins when present; `content_html` is used only
otherwise; nothing is emitted when both are absent. -/
def Item.contentBlock (it : Item) : String :=
  match it.content_text with
  | some content_text => "<content type=\"text\">" ++ content_text ++ "</content>\n"
  | none =>
    match it.content_html with
    | some content_html =>
      "<content type=\"html\"><![CDATA[ " ++ content_html ++ " ]]></content>\n"
    | none => ""

/-- The value placed in an entry's `updated` element (src/main.rs lines
132-138): `date_modified`, else `date_published`, else the wall clock,
which is passed in as `now`. -/
def Item.updatedValue (it : Item) (now : String) : String :=
  match it.date_modified with
  | some date_modified => date_modified
  | none =>
    match it.date_published with
    | some date_published => date_published
    | none => now

/-- The optional `published` element (src/main.rs lines 142-144). -/
def Item.publishedBlock (it : Item) : String :=
  match it.date_published with
  | some date_published => "<published>" ++ date_published ++ "</published>\n"
  | none => ""

/-- One enclosure link per attachment (src/main.rs lines 152-165),
including the source's stray `/` before `type`. -/
def Attachment.enclosure (att : Attachment) : String :=
  "<link rel=\"enclosure\" href=\"" ++ att.url ++ "\"/ type=\"" ++ att.mime_type ++ "\""
  ++ (match att.size_in_bytes with
      | some size_in_bytes => " length=\"" ++ toString size_in_bytes ++ "\""
      | none => "")
  ++ ">\n"

/-- Rust `Item::to_atom` (src/main.rs lines 101-169), with the wall clock as
the explicit `now` parameter. -/
def Item.to_atom (now : String) (it : Item) : String :=
  it.entryOpen
  ++ "<id>" ++ it.id ++ "</id>\n"
  ++ (match it.title with
      | some title => "<title>" ++ title ++ "</title>\n"
      | none => "")
  ++ (match it.url with
      | some url => "<link rel=\"alternate\" href=\"" ++ url ++ "\"/>\n"
      | none => "")
  ++ (match it.summary with
      | some summary => "<summary>" ++ summary ++ "</summary>\n"
      | none => "")
  ++ it.contentBlock
  ++ "<updated>" ++ it.updatedValue now ++ "</updated>\n"
  ++ it.publishedBlock
  ++ concatMap Author.to_atom (it.authors.getD [])
  ++ concatMap Attachment.enclosure (it.attachments.getD [])
  ++ "</entry>\n"

/-- The opening `feed` tag (src/main.rs lines 227-234). -/
def Feed.feedOpen (f : Feed) : String :=
  match f.language with
  | some language =>
    "<feed xmlns=\"http://www.w3.org/2005/Atom\" xml:lang=\"" ++ language ++ "\">\n"
  | none => "<feed xmlns=\"http://www.w3.org/2005/Atom\">\n"

/-- The fallback author element emitted when no author was rendered
(src/main.rs line 245). -/
def placeholderAuthor : String := "<author><name></name></author>\n"

/-- The author loop of `Feed::to_atom` (src/main.rs lines 236-242):
renders each author while flagging that at least one exists. -/
def Feed.authorsLoop (l : List Author) : String × Bool :=
  l.foldl (fun acc a => (acc.1 ++ a.to_atom, true)) ("", false)

/-- The author block of `Feed::to_atom` (src/main.rs lines 236-246):
the rendered authors, followed by the placeholder when none was
rendered. -/
def Feed.authorsBlock (f : Feed) : String :=
  let core := Feed.authorsLoop (f.authors.getD [])
  core.1 ++ (if core.2 then "" else placeholderAuthor)

/-- The XML document `Feed::to_atom` builds (src/main.rs lines
224-295). -/
def Feed.to_atomXml (now : String) (f : Feed) : String :=
  "<?xml version=\"1.0\" encoding=\"utf-8\"?>\n"
  ++ f.feedOpen
  ++ f.authorsBlock
  ++ "<title>" ++ f.title ++ "</title>\n"
  ++ (match f.feed_url with
      | some feed_url => "<id>" ++ feed_url ++ "</id>\n"
      | none => "<id>" ++ f.title ++ "</id>\n")
  ++ (match f.home_page_url with
      | some home_page_url => "<link rel=\"alternate\" href=\"" ++ home_page_url ++ "\"/>\n"
      | none => "")
  ++ (match f.feed_url with
      | some feed_url => "<link rel=\"self\" href=\"" ++ feed_url ++ "\"/>\n"
      | none => "")
  ++ (match f.description with
      | some description => "<subtitle>" ++ description ++ "</subtitle>\n"
      | none => "")
  ++ (match f.icon with
      | some icon => "<logo>" ++ icon ++ "</logo>\n"
      | none => "")
  ++ "<updated>" ++ f.updatedString ++ "</updated>\n"
  ++ concatMap (Item.to_atom now) (f.items.getD [])
  ++ "</feed>"

/-! ## RFC 3339 timestamp parsing

`parse_dt` (src/main.rs lines 36-38) delegates to the external `time`
crate: `OffsetDateTime::parse(input, &well_known::Rfc3339)`. That
library is not part of this repository, so it is modelled by an
executable parser of the RFC 3339 `date-time` grammar: `full-date "T"
full-time`, with fixed-width numeric components, optional fractional
seconds, a `Z`/`z` or signed numeric UTC offset, and calendar range
checks. -/

/-- A structurally parsed RFC 3339 timestamp. `Z` is represented as a
`+00:00` offset with `zulu` set. -/
structure DateTime3339 where
  year : Nat
  month : Nat
  day : Nat
  hour : Nat
  minute : Nat
  second : Nat
  fracDigits : List Char
  zulu : Bool
  offsetNeg : Bool
  offsetHour : Nat
  offsetMinute : Nat
  deriving Repr, DecidableEq

/-- Numeric value of a decimal digit character. -/
def digVal (c : Char) : Nat := c.toNat - 48

/-- Read exactly two decimal digits. -/
def read2 : List Char → Option (Nat × List Char)
  | a :: b :: rest =>
    if a.isDigit && b.isDigit then some (digVal a * 10 + digVal b, rest)
    else none
  | _ => none

/-- Read exactly four decimal digits. -/
def read4 : List Char → Option (Nat × List Char)
  | a :: b :: c :: d :: rest =>
    if a.isDigit && b.isDigit && c.isDigit && d.isDigit then
      some (digVal a * 1000 + digVal b * 100 + digVal c * 10 + digVal d, rest)
    else none
  | _ => none

/-- Require one specific character. -/
def readChar (c : Char) : List Char → Option (List Char)
  | x :: rest => if x = c then some rest else none
  | [] => none

/-- Whether a year is a leap year in the proleptic Gregorian calendar. -/
def isLeapYear (y : Nat) : Bool :=
  (y % 4 == 0 && y % 100 != 0) || y % 400 == 0

/-- Number of days in a month. -/
def daysInMonth (y m : Nat) : Nat :=
  if m = 2 then (if isLeapYear y then 29 else 28)
  else if m = 4 ∨ m = 6 ∨ m = 9 ∨ m = 11 then 30
  else 31

/-- Optional fractional seconds: a `.` must be followed by at least one
digit. -/
def readFrac (cs : List Char) : Option (List Char × List Char) :=
  match cs with
  | '.' :: rest =>
    let ds := rest.takeWhile Char.isDigit
    if ds.isEmpty then none
    else some (ds, rest.dropWhile Char.isDigit)
  | _ => some ([], cs)

/-- The UTC offset: `Z`/`z`, or a sign followed by `hh:mm`. Returns
(zulu, negative, hour, minute). -/
def readOffset (cs : List Char) : Option ((Bool × Bool × Nat × Nat) × List Char) :=
  match cs with
  | 'Z' :: rest => some ((true, false, 0, 0), rest)
  | 'z' :: rest => some ((true, false, 0, 0), rest)
  | '+' :: rest => do
    let (oh, rest) ← read2 rest
    let rest ← readChar ':' rest
    let (om, rest) ← read2 rest
    pure ((false, false, oh, om), rest)
  | '-' :: rest => do
    let (oh, rest) ← read2 rest
    let rest ← readChar ':' rest
    let (om, rest) ← read2 rest
    pure ((false, true, oh, om), rest)
  | _ => none

/-- The `full-date` part: `YYYY-MM-DD`. -/
def readDate (cs : List Char) : Option ((Nat × Nat × Nat) × List Char) := do
  let (year, cs) ← read4 cs
  let cs ← readChar '-' cs
  let (month, cs) ← read2 cs
  let cs ← readChar '-' cs
  let (day, cs) ← read2 cs
  pure ((year, month, day), cs)

/-- The `partial-time` part: `hh:mm:ss`. -/
def readTime (cs : List Char) : Option ((Nat × Nat × Nat) × List Char) := do
  let (hour, cs) ← read2 cs
  let cs ← readChar ':' cs
  let (minute, cs) ← read2 cs
  let cs ← readChar ':' cs
  let (second, cs) ← read2 cs
  pure ((hour, minute, second), cs)

/-- Model of `parse_dt` (src/main.rs lines 36-38): parse an RFC 3339
`date-time` string, failing on any grammar or calendar-range
violation. -/
def parse_dt (s : String) : Option DateTime3339 := do
  let ((year, month, day), cs) ← readDate s.data
  let cs ← (match cs with
    | 'T' :: rest => some rest
    | 't' :: rest => some rest
    | _ => none)
  let ((hour, minute, second), cs) ← readTime cs
  let (frac, cs) ← readFrac cs
  let (off, cs) ← readOffset cs
  if cs.isEmpty
      && 1 ≤ month && month ≤ 12
      && 1 ≤ day && day ≤ daysInMonth year month
      && hour ≤ 23 && minute ≤ 59 && second ≤ 59
      && off.2.2.1 ≤ 23 && off.2.2.2 ≤ 59 then
    pure ⟨year, month, day, hour, minute, second, frac,
      off.1, off.2.1, off.2.2.1, off.2.2.2⟩
  else
    none

/-- Rust `Feed::to_atom` (src/main.rs lines 224-298): the XML string paired
with the structured parse of the chosen `updated` string. The Rust code
calls `.unwrap()` on that parse; the `none` result models the panic. -/
def Feed.to_atom (now : String) (f : Feed) : Option (String × DateTime3339) :=
  match parse_dt f.updatedString with
  | some t => some (f.to_atomXml now, t)
  | none => none

/-! ## Command line and conditional write -/

/-- What `main` decides to do after inspecting the arguments
(src/main.rs lines 301-336). -/
inductive CliAction where
  | helpExit : CliAction
  | versionExit : CliAction
  | run (input : Option String) (output : Option String) : CliAction
  deriving Repr, DecidableEq

/-- The argument handling of `main` (src/main.rs lines 301-336), with
`args` including the program name at index 0. The `else if args.len() >
2` arm of the source is kept verbatim: it is dead code, because
`args.len() > 1` already covers it. An `output` of `-` is normalized to
`none` (standard output). -/
def parseArgs (args : List String) : CliAction :=
  if args.length > 1 then
    let a1 := args.getD 1 ""
    if a1 = "--help" ∨ a1 = "-h" then .helpExit
    else if a1 = "--version" then .versionExit
    else
      let output := some a1
      let output := if output = some "-" then none else output
      .run none output
  else if args.length > 2 then
    let output := some (args.getD 2 "")
    let output := if output = some "-" then none else output
    .run (some (args.getD 1 "")) output
  else
    .run none none

/-- Abstract state of the output path for `get_mtime` (src/main.rs
lines 22-34): the file's modification instant when the metadata is
readable, and whether the local UTC offset resolves. Instants are
modelled as integers; `to_offset` only changes the displayed offset,
never the instant, so it does not appear. -/
structure FileStat where
  mtime : Option Int
  localOffsetOk : Bool
  deriving Repr, DecidableEq

/-- Rust `get_mtime` (src/main.rs lines 22-34): `Some` only when the
metadata is readable and the local offset resolves. -/
def get_mtime (st : FileStat) : Option Int :=
  match st.mtime with
  | some m => if st.localOffsetOk then some m else none
  | none => none

/-- The write decision of `main` (src/main.rs lines 364-368): write
when `updated > mtime`, or always when `get_mtime` returns `None`. -/
def shouldWrite (st : FileStat) (updated : Int) : Bool :=
  match get_mtime st with
  | some mtime => decide (mtime < updated)
  | none => true

/-- The conditional write of `main` (src/main.rs lines 363-373): the
output file's content after the invocation, given its content before
(`none` when the file does not exist). -/
def writeStep (st : FileStat) (updated : Int) (oldContent : Option String)
    (newContent : String) : Option String :=
  if shouldWrite st updated then some newContent else oldContent

/-! ## Concrete fixtures used to instantiate the theorems -/

/-- An item with only the required `id`. -/
def blankItem : Item :=
  { id := "i1", url := none, external_url := none, title := none,
    content_html := none, content_text := none, summary := none,
    image := none, banner_image := none, date_published := none,
    date_modified := none, authors := none, author := none, tags := none,
    language := none, attachments := none }

/-- A feed with only the required `version` and `title`. -/
def blankFeed : Feed :=
  { version := "https://jsonfeed.org/version/1.1", title := "T",
    home_page_url := none, feed_url := none, description := none,
    user_comment := none, next_url := none, icon := none, favicon := none,
    authors := none, author := none, language := none, expired := none,
    hubs := none, items := none }

/-- A feed whose single item carries a `date_modified` below the floor
string. -/
def preFloorFeed : Feed :=
  { blankFeed with
    items := some [{ blankItem with date_modified := some "1999-12-31T23:59:59Z" }] }

/-- An item with only a `date_published`, above the floor string. -/
def pubItem : Item :=
  { blankItem with date_published := some "2021-01-01T00:00:00Z" }

/-- A feed whose single item is `pubItem`. -/
def pubFeed : Feed :=
  { blankFeed with items := some [pubItem] }

/-- A JSON document carrying a legacy feed-level `author` and no
`authors`. -/
def legacyAuthorJson : Json :=
  .obj [("version", .str "https://jsonfeed.org/version/1.1"),
        ("title", .str "T"),
        ("author", .obj [("name", .str "A")])]

/-- What `decodeFeed` produces on `legacyAuthorJson`, before
normalization. -/
def legacyAuthorDecoded : Feed :=
  { blankFeed with author := some ⟨some "A", none, none⟩ }

/-- What `Feed::parse` produces on `legacyAuthorJson`, after
normalization. -/
def legacyAuthorParsed : Feed :=
  { blankFeed with authors := some [⟨some "A", none, none⟩] }

/-! ## Order lemmas for the string comparison -/

lemma charListLt_nil_right : ∀ l : List Char, charListLt l [] = false
  | [] => rfl
  | _ :: _ => rfl

lemma charListLt_irrefl : ∀ l : List Char, charListLt l l = false := by
  intro l
  induction l with
  | nil => rfl
  | cons a as ih => simp [charListLt, lt_irrefl, ih]

lemma charListLt_asymm : ∀ l m : List Char,
    charListLt l m = true → charListLt m l = false := by
  intro l
  induction l with
  | nil =>
    intro m _
    exact charListLt_nil_right m
  | cons a as ih =>
    intro m hm
    cases m with
    | nil => simp [charListLt] at hm
    | cons b bs =>
      simp only [charListLt] at hm ⊢
      rcases lt_trichotomy a b with hab | hab | hab
      · rw [if_neg (asymm hab), if_pos hab]
      · subst hab
        rw [if_neg (lt_irrefl a), if_neg (lt_irrefl a)] at hm ⊢
        exact ih bs hm
      · rw [if_neg (asymm hab), if_pos hab] at hm
        exact absurd hm (by simp)

lemma charListLt_ge_trans : ∀ l m n : List Char,
    charListLt l m = false → charListLt m n = false → charListLt l n = false := by
  intro l
  induction l with
  | nil =>
    intro m n hlm hmn
    cases m with
    | nil => exact hmn
    | cons b bs => simp [charListLt] at hlm
  | cons a as ih =>
    intro m n hlm hmn
    cases n with
    | nil => exact charListLt_nil_right _
    | cons c cs =>
      cases m with
      | nil => simp [charListLt] at hmn
      | cons b bs =>
        simp only [charListLt] at hlm hmn ⊢
        have hba : b ≤ a := by
          by_cases h : a < b
          · rw [if_pos h] at hlm; exact absurd hlm (by simp)
          · exact not_lt.mp h
        have hcb : c ≤ b := by
          by_cases h : b < c
          · rw [if_pos h] at hmn; exact absurd hmn (by simp)
          · exact not_lt.mp h
        have hca : c ≤ a := le_trans hcb hba
        rw [if_neg (not_lt.mpr hca)]
        by_cases hlt : c < a
        · rw [if_pos hlt]
        · rw [if_neg hlt]
          have hac : a = c := le_antisymm (not_lt.mp hlt) hca
          subst hac
          have hab : b = a := le_antisymm hba hcb
          subst hab
          rw [if_neg (lt_irrefl b), if_neg (lt_irrefl b)] at hlm hmn
          exact ih bs cs hlm hmn

lemma strLtB_irrefl (s : String) : strLtB s s = false :=
  charListLt_irrefl s.data

lemma strLtB_asymm {s t : String} (h : strLtB s t = true) : strLtB t s = false :=
  charListLt_asymm s.data t.data h

lemma strLtB_ge_trans {s t u : String} (hst : strLtB s t = false)
    (htu : strLtB t u = false) : strLtB s u = false :=
  charListLt_ge_trans s.data t.data u.data hst htu

/-! ## The feed `updated` scan computes a maximum -/

/-- The scan step, expressed through the item's candidate. -/
lemma updatedStep_candidate (upd : String) (it : Item) :
    updatedStep upd it =
      match it.candidate with
      | some c => if strLtB upd c then c else upd
      | none => upd := by
  unfold updatedStep Item.candidate
  cases it.date_modified <;> cases it.date_published <;> rfl

lemma candidates_nil : candidates [] = [] := rfl

lemma candidates_cons (it : Item) (rest : List Item) :
    candidates (it :: rest) =
      match it.candidate with
      | some c => c :: candidates rest
      | none => candidates rest := by
  unfold candidates
  rw [List.filterMap_cons]
  cases it.candidate <;> rfl

/-- The scan result is the starting accumulator or one of the
candidates, and no starting accumulator or candidate exceeds it. -/
lemma updatedScan_aux : ∀ (l : List Item) (acc : String),
    (l.foldl updatedStep acc = acc ∨ l.foldl updatedStep acc ∈ candidates l) ∧
    strLtB (l.foldl updatedStep acc) acc = false ∧
    (∀ c ∈ candidates l, strLtB (l.foldl updatedStep acc) c = false) := by
  intro l
  induction l with
  | nil =>
    intro acc
    refine ⟨Or.inl rfl, strLtB_irrefl acc, ?_⟩
    intro c hc
    simp [candidates_nil] at hc
  | cons it rest ih =>
    intro acc
    have hfold : (it :: rest).foldl updatedStep acc
        = rest.foldl updatedStep (updatedStep acc it) := rfl
    obtain ⟨ihmem, ihacc, ihall⟩ := ih (updatedStep acc it)
    cases hc : it.candidate with
    | none =>
      have hnone : updatedStep acc it = acc := by
        rw [updatedStep_candidate, hc]
      rw [candidates_cons, hc]
      rw [hnone] at ihmem ihacc ihall
      exact ⟨by rw [hfold, hnone]; exact ihmem,
        by rw [hfold, hnone]; exact ihacc,
        fun c' hc' => by rw [hfold, hnone]; exact ihall c' hc'⟩
    | some c =>
      have hstepc : updatedStep acc it = if strLtB acc c then c else acc := by
        rw [updatedStep_candidate, hc]
      have hacc' : strLtB (updatedStep acc it) acc = false := by
        rw [hstepc]
        by_cases hlt : strLtB acc c = true
        · rw [if_pos hlt]
          exact strLtB_asymm hlt
        · simp only [Bool.not_eq_true] at hlt
          rw [hlt]
          simpa using strLtB_irrefl acc
      have hgec : strLtB (updatedStep acc it) c = false := by
        rw [hstepc]
        by_cases hlt : strLtB acc c = true
        · rw [if_pos hlt]
          exact strLtB_irrefl c
        · simp only [Bool.not_eq_true] at hlt
          rw [hlt]
          simpa using hlt
      rw [candidates_cons, hc]
      refine ⟨?_, ?_, ?_⟩
      · rw [hfold]
        rcases ihmem with h | h
        · by_cases hlt : strLtB acc c = true
          · right
            rw [h, hstepc, if_pos hlt]
            exact List.mem_cons_self c _
          · left
            simp only [Bool.not_eq_true] at hlt
            rw [h, hstepc, hlt]
            simp
        · exact Or.inr (List.mem_cons_of_mem _ h)
      · rw [hfold]
        exact strLtB_ge_trans ihacc hacc'
      · intro c' hc'
        rw [hfold]
        rcases List.mem_cons.mp hc' with h | h
        · subst h
          exact strLtB_ge_trans ihacc hgec
        · exact ihall c' h

/-- The scan result is the floor or one of the candidates. -/
lemma updatedScan_mem (items : List Item) :
    updatedScan items = floorUpdated ∨ updatedScan items ∈ candidates items :=
  (updatedScan_aux items floorUpdated).1

/-- No candidate, and not the floor, lexicographically exceeds the scan
result. -/
lemma updatedScan_ge (items : List Item) :
    strLtB (updatedScan items) floorUpdated = false ∧
    ∀ c ∈ candidates items, strLtB (updatedScan items) c = false :=
  ⟨(updatedScan_aux items floorUpdated).2.1, (updatedScan_aux items floorUpdated).2.2⟩

/-! ## The feed author loop -/

lemma authorsLoop_aux : ∀ (l : List Author) (acc : String) (b : Bool),
    l.foldl (fun acc a => (acc.1 ++ a.to_atom, true)) (acc, b)
      = (acc ++ concatMap Author.to_atom l, b || !l.isEmpty) := by
  intro l
  induction l with
  | nil =>
    intro acc b
    simp [concatMap, String.append_empty]
  | cons a as ih =>
    intro acc b
    rw [List.foldl_cons, ih]
    simp [concatMap, String.append_assoc]

/-- The author loop renders the concatenation of the authors, and the
flag records whether the list was non-empty. -/
lemma authorsLoop_eq (l : List Author) :
    Feed.authorsLoop l = (concatMap Author.to_atom l, !l.isEmpty) := by
  unfold Feed.authorsLoop
  rw [authorsLoop_aux]
  simp [String.empty_append]

/-! ## Decoder lemmas -/

lemma getField_append {fields : List (String × Json)} {k key : String} {v : Json}
    (h : key ≠ k) : getField (fields ++ [(k, v)]) key = getField fields key := by
  induction fields with
  | nil => simp [getField, Ne.symm h]
  | cons p rest ih =>
    obtain ⟨pk, pv⟩ := p
    by_cases hpk : pk = key <;> simp [getField, hpk, ih]

lemma reqField_append {α : Type} {dec : Json → Option α}
    {fields : List (String × Json)} {k key : String} {v : Json} (h : key ≠ k) :
    reqField dec (fields ++ [(k, v)]) key = reqField dec fields key := by
  unfold reqField
  rw [getField_append h]

lemma optField_append {α : Type} {dec : Json → Option α}
    {fields : List (String × Json)} {k key : String} {v : Json} (h : key ≠ k) :
    optField dec (fields ++ [(k, v)]) key = optField dec fields key := by
  unfold optField
  rw [getField_append h]

/-- The field names the `Feed` deserializer consumes. -/
def feedFieldNames : List String :=
  ["version", "title", "home_page_url", "feed_url", "description",
   "user_comment", "next_url", "icon", "favicon", "authors", "author",
   "language", "expired", "hubs", "items"]

/-- The field names the `Item` deserializer consumes. -/
def itemFieldNames : List String :=
  ["id", "url", "external_url", "title", "content_html", "content_text",
   "summary", "image", "banner_image", "date_published", "date_modified",
   "authors", "author", "tags", "language", "attachments"]

lemma decodeFeedFront_append {fields : List (String × Json)} {k : String}
    {v : Json} (h : ¬ k ∈ feedFieldNames) :
    decodeFeedFront (fields ++ [(k, v)]) = decodeFeedFront fields := by
  simp only [feedFieldNames, List.mem_cons, List.not_mem_nil, or_false,
    not_or] at h
  obtain ⟨h1, h2, h3, h4, h5, h6, h7, -⟩ := h
  simp only [decodeFeedFront, reqField_append (Ne.symm h1),
    reqField_append (Ne.symm h2), optField_append (Ne.symm h3),
    optField_append (Ne.symm h4), optField_append (Ne.symm h5),
    optField_append (Ne.symm h6), optField_append (Ne.symm h7)]

lemma decodeFeedBack_append {fields : List (String × Json)} {k : String}
    {v : Json} (h : ¬ k ∈ feedFieldNames) :
    decodeFeedBack (fields ++ [(k, v)]) = decodeFeedBack fields := by
  simp only [feedFieldNames, List.mem_cons, List.not_mem_nil, or_false,
    not_or] at h
  obtain ⟨-, -, -, -, -, -, -, h8, h9, h10, h11, h12, h13, h14, h15⟩ := h
  simp only [decodeFeedBack, optField_append (Ne.symm h8),
    optField_append (Ne.symm h9), optField_append (Ne.symm h10),
    optField_append (Ne.symm h11), optField_append (Ne.symm h12),
    optField_append (Ne.symm h13), optField_append (Ne.symm h14),
    optField_append (Ne.symm h15)]

/-- An object field whose name the `Feed` deserializer does not consume
is ignored. -/
lemma decodeFeed_ignores_unknown (fields : List (String × Json)) (k : String)
    (v : Json) (h : ¬ k ∈ feedFieldNames) :
    decodeFeed (.obj (fields ++ [(k, v)])) = decodeFeed (.obj fields) := by
  simp only [decodeFeed, decodeFeedFront_append h, decodeFeedBack_append h]

lemma decodeItemFront_append {fields : List (String × Json)} {k : String}
    {v : Json} (h : ¬ k ∈ itemFieldNames) :
    decodeItemFront (fields ++ [(k, v)]) = decodeItemFront fields := by
  simp only [itemFieldNames, List.mem_cons, List.not_mem_nil, or_false,
    not_or] at h
  obtain ⟨h1, h2, h3, h4, h5, h6, h7, h8, -⟩ := h
  simp only [decodeItemFront, reqField_append (Ne.symm h1),
    optField_append (Ne.symm h2), optField_append (Ne.symm h3),
    optField_append (Ne.symm h4), optField_append (Ne.symm h5),
    optField_append (Ne.symm h6), optField_append (Ne.symm h7),
    optField_append (Ne.symm h8)]

lemma decodeItemBack_append {fields : List (String × Json)} {k : String}
    {v : Json} (h : ¬ k ∈ itemFieldNames) :
    decodeItemBack (fields ++ [(k, v)]) = decodeItemBack fields := by
  simp only [itemFieldNames, List.mem_cons, List.not_mem_nil, or_false,
    not_or] at h
  obtain ⟨-, -, -, -, -, -, -, -, h9, h10, h11, h12, h13, h14, h15, h16⟩ := h
  simp only [decodeItemBack, optField_append (Ne.symm h9),
    optField_append (Ne.symm h10), optField_append (Ne.symm h11),
    optField_append (Ne.symm h12), optField_append (Ne.symm h13),
    optField_append (Ne.symm h14), optField_append (Ne.symm h15),
    optField_append (Ne.symm h16)]

/-- An object field whose name the `Item` deserializer does not consume
is ignored. -/
lemma decodeItem_ignores_unknown (fields : List (String × Json)) (k : String)
    (v : Json) (h : ¬ k ∈ itemFieldNames) :
    decodeItem (.obj (fields ++ [(k, v)])) = decodeItem (.obj fields) := by
  simp only [decodeItem, decodeItemFront_append h, decodeItemBack_append h]

lemma decodeFeedFront_missing_version {fields : List (String × Json)}
    (h : getField fields "version" = none) : decodeFeedFront fields = none := by
  simp only [decodeFeedFront, reqField]
  rw [h]
  rfl

lemma decodeFeed_missing_version {fields : List (String × Json)}
    (h : getField fields "version" = none) : decodeFeed (.obj fields) = none := by
  simp only [decodeFeed]
  rw [decodeFeedFront_missing_version h]
  rfl

lemma decodeFeedFront_bad_title {fields : List (String × Json)}
    (h : reqField decodeString fields "title" = none) :
    decodeFeedFront fields = none := by
  simp only [decodeFeedFront, h]
  cases reqField decodeString fields "version" <;> rfl

lemma decodeFeed_bad_title {fields : List (String × Json)}
    (h : reqField decodeString fields "title" = none) :
    decodeFeed (.obj fields) = none := by
  simp only [decodeFeed]
  rw [decodeFeedFront_bad_title h]
  rfl

lemma decodeItemFront_missing_id {fields : List (String × Json)}
    (h : getField fields "id" = none) : decodeItemFront fields = none := by
  simp only [decodeItemFront, reqField]
  rw [h]
  rfl

lemma decodeItem_missing_id {fields : List (String × Json)}
    (h : getField fields "id" = none) : decodeItem (.obj fields) = none := by
  simp only [decodeItem]
  rw [decodeItemFront_missing_id h]
  rfl

/-! ## Author-normalization lemmas -/

lemma Item.cleanup_authors_clears_legacy (it : Item) :
    it.cleanup_authors.author = none := by
  unfold Item.cleanup_authors
  split
  · rfl
  · next heq => exact heq

lemma Item.cleanup_authors_noop_when_clear {it : Item} (h : it.author = none) :
    it.cleanup_authors = it := by
  unfold Item.cleanup_authors
  rw [h]

lemma Item.cleanup_authors_moves_single {it : Item} {a : Author}
    (h1 : it.author = some a) (h2 : it.authors = none) :
    it.cleanup_authors.authors = some [a] := by
  unfold Item.cleanup_authors
  rw [h1]
  simp [h2]

lemma Item.cleanup_authors_keeps_plural {it : Item} {l : List Author}
    (h : it.authors = some l) : it.cleanup_authors.authors = some l := by
  unfold Item.cleanup_authors
  split
  · simp [h]
  · exact h

lemma Feed.cleanup_authors_author_none (f : Feed) :
    f.cleanup_authors.author = none := by
  unfold Feed.cleanup_authors
  split
  · rfl
  · next heq => exact heq

lemma Feed.cleanup_authors_of_author_none {f : Feed} (h : f.author = none) :
    f.cleanup_authors = f := by
  unfold Feed.cleanup_authors
  rw [h]

lemma Feed.cleanup_authors_moves {f : Feed} {a : Author}
    (h1 : f.author = some a) (h2 : f.authors = none) :
    f.cleanup_authors.authors = some [a] := by
  unfold Feed.cleanup_authors
  rw [h1]
  simp [h2]

lemma Feed.cleanup_authors_keeps {f : Feed} {l : List Author}
    (h : f.authors = some l) : f.cleanup_authors.authors = some l := by
  unfold Feed.cleanup_authors
  split
  · simp [h]
  · exact h

lemma Feed.cleanup_authors_items (f : Feed) :
    f.cleanup_authors.items = f.items := by
  unfold Feed.cleanup_authors
  split
  · next a heq => by_cases hb : f.authors.isNone <;> simp [hb]
  · rfl

/-! ## Claim theorems -/

/-- C1, counterexample: `preFloorFeed`'s single item contributes the
candidate `1999-12-31T23:59:59Z`, so by the claim the feed-level
`updated` should be that lexicographically maximal candidate and the
floor should not be used; the code nevertheless renders the floor
`2000-01-01T00:00:00Z`. -/
theorem C1_counterexample :
    candidates (preFloorFeed.items.getD []) = ["1999-12-31T23:59:59Z"] ∧
    Feed.updatedString preFloorFeed = "2000-01-01T00:00:00Z" ∧
    Feed.updatedString preFloorFeed ≠ "1999-12-31T23:59:59Z" := by
  refine ⟨by decide, by decide, by decide⟩

/-- C1, amended: the feed-level `updated` string computed by
`Feed::to_atom` is the lexicographically maximal string among the floor
`2000-01-01T00:00:00Z` and all items' candidates (`date_modified` if
present, else `date_published` if present, else no contribution): it is
the floor or one of the candidates, and neither the floor nor any
candidate lexicographically exceeds it. The floor therefore also wins
when items contribute only candidates below it. -/
theorem C1_feed_updated_max (f : Feed) :
    (Feed.updatedString f = floorUpdated ∨
      Feed.updatedString f ∈ candidates (f.items.getD [])) ∧
    strLtB (Feed.updatedString f) floorUpdated = false ∧
    (∀ c ∈ candidates (f.items.getD []), strLtB (Feed.updatedString f) c = false) := by
  unfold Feed.updatedString
  exact ⟨updatedScan_mem _, (updatedScan_ge _).1, (updatedScan_ge _).2⟩

/-- C1, witness: the amended theorem instantiated at `pubFeed`, whose
single candidate `2021-01-01T00:00:00Z` is above the floor. -/
theorem C1_witness :
    strLtB (Feed.updatedString pubFeed) "2021-01-01T00:00:00Z" = false ∧
    strLtB (Feed.updatedString pubFeed) floorUpdated = false :=
  ⟨(C1_feed_updated_max pubFeed).2.2 "2021-01-01T00:00:00Z" (by decide),
   (C1_feed_updated_max pubFeed).2.1⟩

/-- C4: invoked as `prog in.json out.xml`, `main` does not read from
the file named by the first positional argument: the `args.len() > 2`
arm that would assign `input` is dead code behind `args.len() > 1`, so
the program plans to read standard input and to write to `in.json`,
ignoring `out.xml` — contradicting the program's own usage text
`prog [[input] output]`. -/
theorem C4_two_args_reads_stdin :
    parseArgs ["prog", "in.json", "out.xml"] = CliAction.run none (some "in.json") ∧
    parseArgs ["prog", "in.json", "out.xml"] ≠
      CliAction.run (some "in.json") (some "out.xml") := by
  refine ⟨by decide, by decide⟩

/-- C5: when writing to a named file, the file is written if and only
if the computed `updated` instant is strictly greater than the file's
mtime, or `get_mtime` yields nothing (missing file or undeterminable
mtime); when the existing mtime is not strictly below `updated`, the
content is left unchanged. -/
theorem C5_conditional_write (st : FileStat) (updated : Int)
    (oldContent : Option String) (newContent : String) :
    (shouldWrite st updated = true ↔
      get_mtime st = none ∨ ∃ m, get_mtime st = some m ∧ m < updated) ∧
    (∀ m, get_mtime st = some m → updated ≤ m →
      writeStep st updated oldContent newContent = oldContent) ∧
    (get_mtime st = none →
      writeStep st updated oldContent newContent = some newContent) ∧
    (∀ m, get_mtime st = some m → m < updated →
      writeStep st updated oldContent newContent = some newContent) := by
  refine ⟨?_, ?_, ?_, ?_⟩
  · unfold shouldWrite
    cases h : get_mtime st with
    | none => simp
    | some m => simp
  · intro m hm hle
    unfold writeStep shouldWrite
    rw [hm]
    simp [not_lt.mpr hle]
  · intro h
    unfold writeStep shouldWrite
    rw [h]
    simp
  · intro m hm hlt
    unfold writeStep shouldWrite
    rw [hm]
    simp [hlt]

/-- C5, witness: with an existing mtime 10 and `updated` 5 the content
is unchanged; with mtime 10 and `updated` 20, or with no mtime, it is
rewritten. -/
theorem C5_witness :
    writeStep ⟨some 10, true⟩ 5 (some "old") "new" = some "old" ∧
    writeStep ⟨some 10, true⟩ 20 (some "old") "new" = some "new" ∧
    writeStep ⟨none, true⟩ 5 none "new" = some "new" :=
  ⟨(C5_conditional_write ⟨some 10, true⟩ 5 (some "old") "new").2.1 10 (by decide) (by decide),
   (C5_conditional_write ⟨some 10, true⟩ 20 (some "old") "new").2.2.2 10 (by decide) (by decide),
   (C5_conditional_write ⟨none, true⟩ 5 none "new").2.2.1 (by decide)⟩

/-- C2: every successfully parsed feed is normalized: the legacy
`author` is absent from the feed and from every item; when the
deserialized feed had `author` and no `authors`, the result's `authors`
is the one-element list of that author unchanged; when it had
`authors`, that list is kept verbatim (the legacy value is discarded);
and the item list is the deserialized one with the same normalization
applied to each item. -/
theorem C2_parse_normalizes (j : Json) (f f0 : Feed)
    (hp : Feed.parse j = some f) (hd : decodeFeed j = some f0) :
    f.author = none ∧
    (∀ it ∈ f.items.getD [], it.author = none) ∧
    (∀ a, f0.author = some a → f0.authors = none → f.authors = some [a]) ∧
    (∀ l, f0.authors = some l → f.authors = some l) ∧
    f.items = f0.items.map (List.map Item.cleanup_authors) ∧
    (∀ it : Item, ∀ a, it.author = some a → it.authors = none →
      it.cleanup_authors.authors = some [a]) ∧
    (∀ it : Item, ∀ l, it.authors = some l →
      it.cleanup_authors.authors = some l) := by
  unfold Feed.parse at hp
  rw [hd] at hp
  simp only [Option.map_some'] at hp
  have hf : f = { f0.cleanup_authors with
      items := f0.cleanup_authors.items.map (List.map Item.cleanup_authors) } :=
    (Option.some.inj hp).symm
  subst hf
  refine ⟨?_, ?_, ?_, ?_, ?_, ?_, ?_⟩
  · exact Feed.cleanup_authors_author_none f0
  · intro it hit
    cases hi : f0.cleanup_authors.items with
    | none => simp [hi] at hit
    | some l =>
      simp only [hi, Option.map_some', Option.getD_some, List.mem_map] at hit
      obtain ⟨it0, _, heq⟩ := hit
      rw [← heq]
      exact Item.cleanup_authors_clears_legacy it0
  · intro a h1 h2
    exact Feed.cleanup_authors_moves h1 h2
  · intro l h
    exact Feed.cleanup_authors_keeps h
  · show f0.cleanup_authors.items.map _ = f0.items.map _
    rw [Feed.cleanup_authors_items]
  · intro it a h1 h2
    exact Item.cleanup_authors_moves_single h1 h2
  · intro it l h
    exact Item.cleanup_authors_keeps_plural h

/-- C2, witness: the theorem instantiated at a document with a legacy
feed-level `author` and no `authors`. -/
theorem C2_witness :
    legacyAuthorParsed.author = none ∧
    legacyAuthorParsed.authors = some [⟨some "A", none, none⟩] := by
  have h := C2_parse_normalizes legacyAuthorJson legacyAuthorParsed
    legacyAuthorDecoded (by decide) (by decide)
  exact ⟨h.1, h.2.2.1 ⟨some "A", none, none⟩ (by decide) (by decide)⟩

/-- C3, counterexample: a well-typed document with `title` but without
`version` is rejected, because the `Feed` struct declares `version` as
a plain `String`; the claim said only `title` (on Feed) and `id` (on
items) are required and `version` may be absent. -/
theorem C3_counterexample :
    getField [("title", Json.str "T")] "title" = some (Json.str "T") ∧
    Feed.parse (Json.obj [("title", Json.str "T")]) = none :=
  ⟨rfl, rfl⟩

/-- C3, amended: deserialization fails exactly on a type mismatch or a
missing required field, where the required fields are `version` and
`title` on the Feed and `id` on each Item (plus the fields the data
model already marks required on Attachment and Hub); unknown fields are
ignored and every other field may be absent: a document with only
`version` and `title` parses with all optional fields absent, one with
only `id` yields an item with all optional fields absent, a missing
`version`, missing `title`, mistyped `title`, missing `id`, or
non-object document fails, and appending an unconsumed field changes
nothing. -/
theorem C3_parse_requirements :
    (∀ v t : String,
      Feed.parse (.obj [("version", .str v), ("title", .str t)]) =
        some { blankFeed with version := v, title := t }) ∧
    (∀ fields, getField fields "version" = none → decodeFeed (.obj fields) = none) ∧
    (∀ fields, getField fields "title" = none → decodeFeed (.obj fields) = none) ∧
    (∀ fields n, getField fields "title" = some (.num n) →
      decodeFeed (.obj fields) = none) ∧
    (∀ fields, getField fields "id" = none → decodeItem (.obj fields) = none) ∧
    (∀ s : String, decodeItem (.obj [("id", .str s)]) = some { blankItem with id := s }) ∧
    (∀ fields k v, ¬ k ∈ feedFieldNames →
      decodeFeed (.obj (fields ++ [(k, v)])) = decodeFeed (.obj fields)) ∧
    (∀ fields k v, ¬ k ∈ itemFieldNames →
      decodeItem (.obj (fields ++ [(k, v)])) = decodeItem (.obj fields)) ∧
    decodeFeed .null = none := by
  refine ⟨?_, ?_, ?_, ?_, ?_, ?_, ?_, ?_, rfl⟩
  · intro v t
    rfl
  · intro fields h
    exact decodeFeed_missing_version h
  · intro fields h
    refine decodeFeed_bad_title ?_
    unfold reqField
    rw [h]
  · intro fields n h
    refine decodeFeed_bad_title ?_
    unfold reqField
    rw [h]
    rfl
  · intro fields h
    exact decodeItem_missing_id h
  · intro s
    rfl
  · exact decodeFeed_ignores_unknown
  · exact decodeItem_ignores_unknown

/-- C3, witness: the amended theorem instantiated at concrete
documents. -/
theorem C3_witness :
    Feed.parse (.obj [("version", .str "v1"), ("title", .str "My feed")]) =
      some { blankFeed with version := "v1", title := "My feed" } ∧
    decodeFeed (.obj ([("version", .str "v1"), ("title", .str "T")]
        ++ [("x_custom", .null)])) =
      decodeFeed (.obj [("version", .str "v1"), ("title", .str "T")]) :=
  ⟨C3_parse_requirements.1 "v1" "My feed",
   C3_parse_requirements.2.2.2.2.2.2.1
     [("version", .str "v1"), ("title", .str "T")] "x_custom" .null (by decide)⟩

/-- C6: author normalization is idempotent on items and feeds: a value
whose legacy `author` is absent is left unchanged, and since
normalization always clears `author`, applying it twice equals applying
it once. -/
theorem C6_cleanup_idempotent (it : Item) (f : Feed) :
    (it.author = none → it.cleanup_authors = it) ∧
    it.cleanup_authors.cleanup_authors = it.cleanup_authors ∧
    (f.author = none → f.cleanup_authors = f) ∧
    f.cleanup_authors.cleanup_authors = f.cleanup_authors :=
  ⟨fun h => Item.cleanup_authors_noop_when_clear h,
   Item.cleanup_authors_noop_when_clear (Item.cleanup_authors_clears_legacy it),
   fun h => Feed.cleanup_authors_of_author_none h,
   Feed.cleanup_authors_of_author_none (Feed.cleanup_authors_author_none f)⟩

/-- C6, witness: the theorem instantiated at already-normalized
values. -/
theorem C6_witness :
    blankItem.cleanup_authors = blankItem ∧
    blankFeed.cleanup_authors = blankFeed :=
  ⟨(C6_cleanup_idempotent blankItem blankFeed).1 rfl,
   (C6_cleanup_idempotent blankItem blankFeed).2.2.1 rfl⟩

/-- C7: when `Feed.authors` is absent or empty, the author block of the
rendered feed is exactly the one placeholder author element with an
empty name; when it is non-empty, the block is exactly the
concatenation of one author element per entry — no placeholder is
appended. -/
theorem C7_author_fallback (f : Feed) :
    ((f.authors = none ∨ f.authors = some []) →
      f.authorsBlock = placeholderAuthor) ∧
    (∀ l, f.authors = some l → l ≠ [] →
      f.authorsBlock = concatMap Author.to_atom l) := by
  constructor
  · intro h
    rcases h with h | h <;>
      simp [Feed.authorsBlock, h, authorsLoop_eq, concatMap, placeholderAuthor]
  · intro l hl hne
    cases l with
    | nil => exact absurd rfl hne
    | cons a as =>
      simp [Feed.authorsBlock, hl, authorsLoop_eq, String.append_empty]

/-- C7, witness: a feed without authors renders the placeholder; a
one-author feed renders that author's element. -/
theorem C7_witness :
    blankFeed.authorsBlock = placeholderAuthor ∧
    (Feed.authorsBlock { blankFeed with authors := some [⟨some "A", none, none⟩] }
      = concatMap Author.to_atom [⟨some "A", none, none⟩]) :=
  ⟨(C7_author_fallback blankFeed).1 (Or.inl rfl),
   (C7_author_fallback { blankFeed with authors := some [⟨some "A", none, none⟩] }).2
     [⟨some "A", none, none⟩] rfl (by decide)⟩

/-- C8: when `content_text` is present the entry's content element is
the text-typed one built from it, regardless of `content_html`; the
html-typed element appears only when `content_text` is absent and
`content_html` present; with both absent no content element appears, so
at most one is emitted per entry. -/
theorem C8_content_priority (it : Item) :
    (∀ t, it.content_text = some t →
      it.contentBlock = "<content type=\"text\">" ++ t ++ "</content>\n") ∧
    (∀ ch, it.content_text = none → it.content_html = some ch →
      it.contentBlock = "<content type=\"html\"><![CDATA[ " ++ ch ++ " ]]></content>\n") ∧
    (it.content_text = none → it.content_html = none → it.contentBlock = "") := by
  refine ⟨?_, ?_, ?_⟩ <;> intros <;> simp_all [Item.contentBlock]

/-- C8, witness: with both contents present only the text-typed element
is rendered. -/
theorem C8_witness :
    Item.contentBlock
        { blankItem with content_text := some "TXT", content_html := some "<p>H</p>" }
      = "<content type=\"text\">" ++ "TXT" ++ "</content>\n" :=
  (C8_content_priority
    { blankItem with content_text := some "TXT", content_html := some "<p>H</p>" }).1
    "TXT" rfl

/-- C9: the entry's `updated` value is `date_modified` if present, else
`date_published` if present, else the render-time clock `now`; the
`published` element is emitted exactly when `date_published` is
present, carrying it; the two are independent, so an item with only
`date_published` renders both from that same value. -/
theorem C9_updated_published_independent (it : Item) (now : String) :
    (∀ m, it.date_modified = some m → it.updatedValue now = m) ∧
    (∀ p, it.date_modified = none → it.date_published = some p →
      it.updatedValue now = p ∧
      it.publishedBlock = "<published>" ++ p ++ "</published>\n") ∧
    (it.date_modified = none → it.date_published = none →
      it.updatedValue now = now) ∧
    (it.date_published = none → it.publishedBlock = "") ∧
    (∀ p, it.date_published = some p →
      it.publishedBlock = "<published>" ++ p ++ "</published>\n") := by
  refine ⟨?_, ?_, ?_, ?_, ?_⟩ <;> intros <;>
    simp_all [Item.updatedValue, Item.publishedBlock]

/-- C9, witness: an item with only `date_published` set renders
`updated` and `published` from that same value. -/
theorem C9_witness :
    pubItem.updatedValue "NOW" = "2021-01-01T00:00:00Z" ∧
    pubItem.publishedBlock =
      "<published>" ++ "2021-01-01T00:00:00Z" ++ "</published>\n" :=
  (C9_updated_published_independent pubItem "NOW").2.1
    "2021-01-01T00:00:00Z" rfl rfl

/-- C10: when every present `date_modified`/`date_published` of every
item parses as RFC 3339, the chosen feed-level `updated` string also
parses — it is the floor (which parses) or one of those candidates — so
the `unwrap` after `parse_dt` in `Feed::to_atom` cannot fail and the
render is total. -/
theorem C10_render_total (f : Feed) (now : String)
    (h : ∀ it ∈ f.items.getD [],
      (∀ s, it.date_modified = some s → (parse_dt s).isSome = true) ∧
      (∀ s, it.date_published = some s → (parse_dt s).isSome = true)) :
    (parse_dt f.updatedString).isSome = true ∧
    (f.to_atom now).isSome = true := by
  have hfloor : (parse_dt floorUpdated).isSome = true := by decide
  have hmain : (parse_dt f.updatedString).isSome = true := by
    unfold Feed.updatedString
    rcases updatedScan_mem (f.items.getD []) with hm | hm
    · rw [hm]
      exact hfloor
    · unfold candidates at hm
      obtain ⟨it, hit, hcand⟩ := List.mem_filterMap.mp hm
      obtain ⟨h1, h2⟩ := h it hit
      unfold Item.candidate at hcand
      cases hdm : it.date_modified with
      | some dm =>
        rw [hdm] at hcand
        have hdmv := Option.some.inj hcand
        rw [← hdmv]
        exact h1 dm hdm
      | none =>
        rw [hdm] at hcand
        exact h2 _ hcand
  refine ⟨hmain, ?_⟩
  unfold Feed.to_atom
  obtain ⟨t, ht⟩ := Option.isSome_iff_exists.mp hmain
  rw [ht]
  rfl

/-- C10, witness: the theorem instantiated at `pubFeed`, whose only
timestamp is a valid RFC 3339 string. -/
theorem C10_witness :
    (parse_dt pubFeed.updatedString).isSome = true ∧
    (pubFeed.to_atom "2022-01-01T00:00:00Z").isSome = true := by
  refine C10_render_total pubFeed "2022-01-01T00:00:00Z" ?_
  intro it hit
  have hone : it = pubItem := by
    simpa [pubFeed] using hit
  subst hone
  constructor
  · intro s hs
    exact Option.noConfusion hs
  · intro s hs
    have hv : s = "2021-01-01T00:00:00Z" := (Option.some.inj hs).symm
    rw [hv]
    decide

end Json2Atom
